import Mathlib

/-!
A shallow embedding of the `loki_jsonschema_resolver` reference-resolution
engine (`src/main.py`): the JSON data model, reference classification
(`evaluate_ref`), pointer resolution (`fetch_value_from_ref`), reference
collection (`walk_references`), annotation caching (`cache_json_properties`),
the merge engine (`walk_and_merge_references`) and the fixpoint scheduler
(`resolve_references`), together with theorems checking the specification's
claims against these definitions.

Python strings are modelled as lists of characters, dictionaries as
insertion-ordered association lists with Python `dict` update semantics,
and raised exceptions as an explicit error type.
-/

/-- The kinds of Python exception the translated code can raise.  Messages are
dropped; only the exception class matters for the behaviour checked here. -/
inductive PyErr where
  | typeError
  | valueError
  | keyError
  | indexError
  | nameError
  | attributeError
  | fileNotFoundError
deriving DecidableEq

/-- JSON values as loaded by `json.load`: objects are insertion-ordered lists
of string-keyed entries, mirroring Python dictionaries.  Numbers are modelled
as integers (the enum-typing code only distinguishes `int` from everything
else; Python `bool` is a distinct constructor because `type(True) == int` is
false). -/
inductive Json where
  | null
  | bool (b : Bool)
  | int (n : Int)
  | str (s : String)
  | arr (elems : List Json)
  | obj (entries : List (String × Json))

mutual

def Json.decEq : (a b : Json) → Decidable (a = b)
  | .null, .null => .isTrue rfl
  | .bool a, .bool b =>
      if h : a = b then .isTrue (by rw [h]) else .isFalse (fun hh => by cases hh; exact h rfl)
  | .int a, .int b =>
      if h : a = b then .isTrue (by rw [h]) else .isFalse (fun hh => by cases hh; exact h rfl)
  | .str a, .str b =>
      if h : a = b then .isTrue (by rw [h]) else .isFalse (fun hh => by cases hh; exact h rfl)
  | .arr a, .arr b =>
      match Json.decEqList a b with
      | .isTrue h => .isTrue (by rw [h])
      | .isFalse h => .isFalse (fun hh => by cases hh; exact h rfl)
  | .obj a, .obj b =>
      match Json.decEqEntries a b with
      | .isTrue h => .isTrue (by rw [h])
      | .isFalse h => .isFalse (fun hh => by cases hh; exact h rfl)
  | .null, .bool _ | .null, .int _ | .null, .str _ | .null, .arr _ | .null, .obj _
  | .bool _, .null | .bool _, .int _ | .bool _, .str _ | .bool _, .arr _ | .bool _, .obj _
  | .int _, .null | .int _, .bool _ | .int _, .str _ | .int _, .arr _ | .int _, .obj _
  | .str _, .null | .str _, .bool _ | .str _, .int _ | .str _, .arr _ | .str _, .obj _
  | .arr _, .null | .arr _, .bool _ | .arr _, .int _ | .arr _, .str _ | .arr _, .obj _
  | .obj _, .null | .obj _, .bool _ | .obj _, .int _ | .obj _, .str _ | .obj _, .arr _ =>
      .isFalse (fun h => Json.noConfusion h)

def Json.decEqList : (a b : List Json) → Decidable (a = b)
  | [], [] => .isTrue rfl
  | [], _ :: _ => .isFalse (fun h => List.noConfusion h)
  | _ :: _, [] => .isFalse (fun h => List.noConfusion h)
  | x :: xs, y :: ys =>
      match Json.decEq x y with
      | .isTrue h1 =>
          match Json.decEqList xs ys with
          | .isTrue h2 => .isTrue (by rw [h1, h2])
          | .isFalse h2 => .isFalse (fun h => by cases h; exact h2 rfl)
      | .isFalse h1 => .isFalse (fun h => by cases h; exact h1 rfl)

def Json.decEqEntries : (a b : List (String × Json)) → Decidable (a = b)
  | [], [] => .isTrue rfl
  | [], _ :: _ => .isFalse (fun h => List.noConfusion h)
  | _ :: _, [] => .isFalse (fun h => List.noConfusion h)
  | (k1, v1) :: xs, (k2, v2) :: ys =>
      if hk : k1 = k2 then
        match Json.decEq v1 v2 with
        | .isTrue h1 =>
            match Json.decEqEntries xs ys with
            | .isTrue h2 => .isTrue (by rw [hk, h1, h2])
            | .isFalse h2 => .isFalse (fun h => by cases h; exact h2 rfl)
        | .isFalse h1 => .isFalse (fun h => by cases h; exact h1 rfl)
      else .isFalse (fun h => by cases h; exact hk rfl)

end

instance : DecidableEq Json := Json.decEq

instance {ε α : Type} [DecidableEq ε] [DecidableEq α] : DecidableEq (Except ε α) := fun x y =>
  match x, y with
  | .ok a, .ok b =>
      if h : a = b then .isTrue (by rw [h]) else .isFalse (fun hh => by cases hh; exact h rfl)
  | .error a, .error b =>
      if h : a = b then .isTrue (by rw [h]) else .isFalse (fun hh => by cases hh; exact h rfl)
  | .ok _, .error _ => .isFalse (fun h => Except.noConfusion h)
  | .error _, .ok _ => .isFalse (fun h => Except.noConfusion h)

namespace Json

/-- Python truthiness of a JSON value. -/
def truthy : Json → Bool
  | null => false
  | bool b => b
  | int n => n != 0
  | str s => s != ""
  | arr l => !l.isEmpty
  | obj e => !e.isEmpty

/-- `type(x) == int` in Python (`bool` is not `int` under an exact type test). -/
def isInt : Json → Bool
  | int _ => true
  | _ => false

def isStr : Json → Bool
  | str _ => true
  | _ => false

def isObj : Json → Bool
  | obj _ => true
  | _ => false

end Json

/-- First-occurrence lookup in an association list (Python dict lookup; real
dictionaries have unique keys). -/
def dictLookup (k : String) : List (String × Json) → Option Json
  | [] => none
  | (k', v) :: rest => if k' = k then some v else dictLookup k rest

/-- `d[k] = v` on a Python dict: an existing key keeps its position and gets
the new value, a new key is appended. -/
def dictSet : List (String × Json) → String → Json → List (String × Json)
  | [], k, v => [(k, v)]
  | (k', v') :: rest, k, v =>
      if k' = k then (k', v) :: rest else (k', v') :: dictSet rest k v

/-- `d.update(src)` on Python dicts: set each entry of `src` in order. -/
def dictUpdate (d src : List (String × Json)) : List (String × Json) :=
  src.foldl (fun acc kv => dictSet acc kv.1 kv.2) d

/-- The keys of an association list, in order. -/
def keysOf (d : List (String × Json)) : List String :=
  d.map Prod.fst

theorem dictLookup_dictSet (k k' : String) (v : Json) (d : List (String × Json)) :
    dictLookup k (dictSet d k' v) = if k' = k then some v else dictLookup k d := by
  induction d with
  | nil => simp [dictSet, dictLookup]
  | cons hd tl ih =>
      obtain ⟨k₀, v₀⟩ := hd
      by_cases h₀ : k₀ = k'
      · subst h₀
        by_cases h₁ : k₀ = k
        · subst h₁; simp [dictSet, dictLookup]
        · simp [dictSet, dictLookup, h₁]
      · by_cases h₁ : k₀ = k
        · subst h₁
          have h₂ : ¬ k' = k₀ := fun h => h₀ h.symm
          simp [dictSet, dictLookup, h₀, h₂]
        · simp [dictSet, dictLookup, h₀, h₁, ih]

theorem mem_keysOf_dictSet (k k' : String) (v : Json) (d : List (String × Json)) :
    k ∈ keysOf (dictSet d k' v) ↔ k ∈ keysOf d ∨ k = k' := by
  induction d with
  | nil => simp [dictSet, keysOf]
  | cons hd tl ih =>
      obtain ⟨k₀, v₀⟩ := hd
      by_cases h₀ : k₀ = k'
      · subst h₀
        clear ih
        simp [dictSet, keysOf]
        tauto
      · simp only [dictSet, if_neg h₀, keysOf, List.map_cons, List.mem_cons]
        have ih' : k ∈ keysOf (dictSet tl k' v) ↔ k ∈ keysOf tl ∨ k = k' := ih
        simp only [keysOf] at ih'
        rw [ih']
        tauto

theorem dictLookup_none_iff (k : String) (d : List (String × Json)) :
    dictLookup k d = none ↔ k ∉ keysOf d := by
  induction d with
  | nil => simp [dictLookup, keysOf]
  | cons hd tl ih =>
      obtain ⟨k₀, v₀⟩ := hd
      by_cases h₀ : k₀ = k
      · subst h₀; simp [dictLookup, keysOf]
      · have h₁ : ¬ k = k₀ := fun h => h₀ h.symm
        simp [dictLookup, keysOf, h₀, h₁, ih]

theorem dictLookup_isSome_iff (k : String) (d : List (String × Json)) :
    (dictLookup k d).isSome ↔ k ∈ keysOf d := by
  rcases h : dictLookup k d with _ | v
  · have hmem := (dictLookup_none_iff k d).mp h
    simp [hmem]
  · simp only [Option.isSome_some, true_iff]
    by_contra hmem
    have hnone := (dictLookup_none_iff k d).mpr hmem
    rw [h] at hnone
    cases hnone

theorem dictLookup_dictUpdate_of_not_mem (k : String) :
    ∀ (src d : List (String × Json)), k ∉ keysOf src →
      dictLookup k (dictUpdate d src) = dictLookup k d := by
  intro src
  induction src with
  | nil => intro d _; rfl
  | cons hd tl ih =>
      intro d h
      obtain ⟨k₀, v₀⟩ := hd
      simp only [keysOf, List.map_cons, List.mem_cons, not_or] at h
      obtain ⟨h1, h2⟩ := h
      have hstep : dictUpdate d ((k₀, v₀) :: tl) = dictUpdate (dictSet d k₀ v₀) tl := rfl
      rw [hstep, ih _ (by simpa [keysOf] using h2), dictLookup_dictSet]
      have h₃ : ¬ k₀ = k := fun hh => h1 hh.symm
      simp [h₃]

/-- The keys of `d` have no duplicates (it behaves like a real Python dict). -/
def NoDupKeys (d : List (String × Json)) : Prop :=
  (keysOf d).Nodup

theorem dictLookup_dictUpdate_of_lookup (k : String) (v : Json) :
    ∀ (src d : List (String × Json)), NoDupKeys src → dictLookup k src = some v →
      dictLookup k (dictUpdate d src) = some v := by
  intro src
  induction src with
  | nil => intro d _ h; cases h
  | cons hd tl ih =>
      intro d hnd h
      obtain ⟨k₀, v₀⟩ := hd
      have hstep : dictUpdate d ((k₀, v₀) :: tl) = dictUpdate (dictSet d k₀ v₀) tl := rfl
      have hnd' := hnd
      unfold NoDupKeys keysOf at hnd'
      simp only [List.map_cons, List.nodup_cons] at hnd'
      by_cases h₀ : k₀ = k
      · subst h₀
        simp only [dictLookup, if_pos rfl] at h
        rw [hstep, dictLookup_dictUpdate_of_not_mem k₀ tl _ (by simpa [keysOf] using hnd'.1),
            dictLookup_dictSet]
        simpa using h
      · simp only [dictLookup, if_neg h₀] at h
        rw [hstep]
        exact ih _ hnd'.2 h

theorem mem_keysOf_dictUpdate_left (k : String) :
    ∀ (src d : List (String × Json)), k ∈ keysOf d → k ∈ keysOf (dictUpdate d src) := by
  intro src
  induction src with
  | nil => intro d h; exact h
  | cons hd tl ih =>
      intro d h
      obtain ⟨k₀, v₀⟩ := hd
      have hstep : dictUpdate d ((k₀, v₀) :: tl) = dictUpdate (dictSet d k₀ v₀) tl := rfl
      rw [hstep]
      exact ih _ ((mem_keysOf_dictSet k k₀ v₀ d).mpr (Or.inl h))

theorem mem_keysOf_dictUpdate_right (k : String) :
    ∀ (src d : List (String × Json)), k ∈ keysOf src → k ∈ keysOf (dictUpdate d src) := by
  intro src
  induction src with
  | nil => intro d h; cases h
  | cons hd tl ih =>
      intro d h
      obtain ⟨k₀, v₀⟩ := hd
      have hstep : dictUpdate d ((k₀, v₀) :: tl) = dictUpdate (dictSet d k₀ v₀) tl := rfl
      rw [hstep]
      have h' : k = k₀ ∨ k ∈ keysOf tl := by simpa [keysOf] using h
      rcases h' with h' | h'
      · subst h'
        exact mem_keysOf_dictUpdate_left k tl _ ((mem_keysOf_dictSet k k v₀ d).mpr (Or.inr rfl))
      · exact ih _ h'

theorem not_mem_keysOf_dictUpdate (k : String) (d src : List (String × Json))
    (hd : k ∉ keysOf d) (hs : k ∉ keysOf src) :
    k ∉ keysOf (dictUpdate d src) := by
  intro hmem
  have h1 := (dictLookup_none_iff k d).mpr hd
  have h2 := dictLookup_dictUpdate_of_not_mem k src d hs
  rw [h1] at h2
  exact ((dictLookup_none_iff k (dictUpdate d src)).mp h2) hmem

/-- ASCII lower-casing of a list of characters (`str.lower()`; the reference
grammar only uses ASCII). -/
def strToLower (cs : List Char) : List Char := cs.map Char.toLower

/-- The whitespace class matched by the guard regex's `\s`. -/
def pySpaceB (c : Char) : Bool :=
  c == ' ' || c == '\t' || c == '\n' || c == '\r' || c == '\x0b' || c == '\x0c'

/-- The character class `[a-zA-Z0-9]` of the guard regex in
`fetch_value_from_ref` (`Char.isAlpha`/`Char.isDigit` are exactly the ASCII
ranges). -/
def asciiAlnum (c : Char) : Bool :=
  c.isAlpha || c.isDigit

/-- `re.search(r"[^a-zA-Z0-9\s]", c)` on a single character: it is special
when it is neither alphanumeric nor whitespace. -/
def isSpecialChar (c : Char) : Bool :=
  !(asciiAlnum c || pySpaceB c)

/-- `s.split(sep)` for a one-character separator: always returns at least one
(possibly empty) piece. -/
def splitOnChar (c : Char) : List Char → List (List Char)
  | [] => [[]]
  | x :: xs =>
      if x = c then [] :: splitOnChar c xs
      else
        match splitOnChar c xs with
        | [] => [[x]]
        | p :: ps => (x :: p) :: ps

/-- `sep.join(pieces)` for a one-character separator. -/
def joinWith (c : Char) : List (List Char) → List Char
  | [] => []
  | [p] => p
  | p :: q :: ps => p ++ c :: joinWith c (q :: ps)

theorem splitOnChar_ne_nil (c : Char) (s : List Char) : splitOnChar c s ≠ [] := by
  induction s with
  | nil => simp [splitOnChar]
  | cons x xs ih =>
      by_cases h : x = c
      · simp [splitOnChar, h]
      · simp only [splitOnChar, if_neg h]
        rcases hsp : splitOnChar c xs with _ | ⟨p, ps⟩
        · simp
        · simp

theorem joinWith_splitOnChar (c : Char) (s : List Char) :
    joinWith c (splitOnChar c s) = s := by
  induction s with
  | nil => rfl
  | cons x xs ih =>
      by_cases h : x = c
      · subst h
        simp only [splitOnChar, if_pos rfl]
        rcases hsp : splitOnChar x xs with _ | ⟨p, ps⟩
        · exact absurd hsp (splitOnChar_ne_nil x xs)
        · rw [hsp] at ih
          simpa [joinWith] using ih
      · simp only [splitOnChar, if_neg h]
        rcases hsp : splitOnChar c xs with _ | ⟨p, ps⟩
        · exact absurd hsp (splitOnChar_ne_nil c xs)
        · rw [hsp] at ih
          cases ps with
          | nil => simpa [joinWith] using ih
          | cons q ps' => simpa [joinWith] using ih

theorem joinWith_append_singleton_ne_nil (c : Char) :
    ∀ (ps : List (List Char)) (q : List Char), q ≠ [] → joinWith c (ps ++ [q]) ≠ [] := by
  intro ps
  induction ps with
  | nil => intro q hq; simpa [joinWith] using hq
  | cons p ps ih =>
      intro q hq
      rcases hpq : ps ++ [q] with _ | ⟨r, rs⟩
      · exact absurd hpq (by cases ps <;> simp)
      · simp [joinWith, hpq]

theorem joinWith_append_singleton_getLast (c : Char) :
    ∀ (ps : List (List Char)) (q : List Char), q ≠ [] →
      (joinWith c (ps ++ [q])).getLast? = q.getLast? := by
  intro ps
  induction ps with
  | nil => intro q _; simp [joinWith]
  | cons p ps ih =>
      intro q hq
      rcases hpq : ps ++ [q] with _ | ⟨r, rs⟩
      · exact absurd hpq (by cases ps <;> simp)
      · have hj : joinWith c ((p :: ps) ++ [q]) = p ++ c :: joinWith c (ps ++ [q]) := by
          rw [List.cons_append, hpq]
          simp [joinWith, ← hpq]
        rw [hj]
        have hne : joinWith c (ps ++ [q]) ≠ [] :=
          joinWith_append_singleton_ne_nil c ps q hq
        rw [List.getLast?_append_of_ne_nil p (by simp),
            show c :: joinWith c (ps ++ [q]) = [c] ++ joinWith c (ps ++ [q]) from rfl,
            List.getLast?_append_of_ne_nil [c] hne]
        exact ih q hq

theorem pattern_infix_joinWith (c : Char) :
    ∀ (a : List (List Char)) (e : List Char) (b : List (List Char)), b ≠ [] →
      (c :: (e ++ [c])) <:+: (c :: joinWith c (a ++ e :: b)) := by
  intro a
  induction a with
  | nil =>
      intro e b hb
      rcases b with _ | ⟨r, rs⟩
      · exact absurd rfl hb
      · refine ⟨[], joinWith c (r :: rs), ?_⟩
        simp [joinWith]
  | cons p a ih =>
      intro e b hb
      have hcons : a ++ e :: b ≠ [] := by cases a <;> simp
      rcases hae : a ++ e :: b with _ | ⟨r, rs⟩
      · exact absurd hae hcons
      · have hj : joinWith c ((p :: a) ++ e :: b) = p ++ c :: joinWith c (a ++ e :: b) := by
          rw [List.cons_append, hae]
          simp [joinWith, ← hae]
        rw [hj]
        obtain ⟨s, u, hsu⟩ := ih e b hb
        refine ⟨c :: p ++ s, u, ?_⟩
        have hassoc : (c :: p ++ s) ++ (c :: (e ++ [c])) ++ u
            = c :: p ++ (s ++ (c :: (e ++ [c])) ++ u) := by simp
        rw [hassoc, hsu]
        simp

theorem strToLower_append (l m : List Char) :
    strToLower (l ++ m) = strToLower l ++ strToLower m := by
  simp [strToLower]

theorem strToLower_joinWith (ps : List (List Char)) :
    strToLower (joinWith '/' ps) = joinWith '/' (ps.map strToLower) := by
  induction ps with
  | nil => rfl
  | cons p ps ih =>
      cases ps with
      | nil => simp [joinWith]
      | cons q ps' =>
          have hsep : Char.toLower '/' = '/' := by decide
          simp only [joinWith, List.map_cons] at ih ⊢
          rw [strToLower_append]
          rw [show strToLower ('/' :: joinWith '/' (q :: ps'))
                = '/' :: strToLower (joinWith '/' (q :: ps')) by simp [strToLower, hsep]]
          rw [ih]

/-- Value of a list of decimal digit characters. -/
def digitsToNat (ds : List Char) : Nat :=
  ds.foldl (fun n c => 10 * n + (c.toNat - '0'.toNat)) 0

/-- Strip leading and trailing whitespace, as Python's `int()` does before
parsing. -/
def pyStrip (cs : List Char) : List Char :=
  ((cs.dropWhile pySpaceB).reverse.dropWhile pySpaceB).reverse

/-- Python's `int(s)` on a string, as used by `_is_targeting_list_item`:
optional sign, then decimal digits.  (Python additionally accepts underscore
separators between digits; pointer segments never contain them.) -/
def parsePyInt (cs : List Char) : Option Int :=
  match pyStrip cs with
  | [] => none
  | c0 :: ds =>
      if c0 = '-' then
        if !ds.isEmpty && ds.all Char.isDigit then some (-(digitsToNat ds : Int)) else none
      else if c0 = '+' then
        if !ds.isEmpty && ds.all Char.isDigit then some ((digitsToNat ds : Int)) else none
      else
        if (c0 :: ds).all Char.isDigit then some ((digitsToNat (c0 :: ds) : Int)) else none

theorem pySpaceB_eq_false_of_isDigit (c : Char) (h : c.isDigit = true) :
    pySpaceB c = false := by
  rcases hc : pySpaceB c with _ | _
  · rfl
  · exfalso
    unfold pySpaceB at hc
    simp only [Bool.or_eq_true, beq_iff_eq] at hc
    rcases hc with ((((h1 | h1) | h1) | h1) | h1) | h1 <;> subst h1 <;>
      exact absurd h (by decide)

theorem dropWhile_pySpaceB_of_all_digits (ds : List Char)
    (h : ds.all Char.isDigit = true) : ds.dropWhile pySpaceB = ds := by
  cases ds with
  | nil => rfl
  | cons d ds' =>
      have hd : d.isDigit = true := by
        simp [List.all_cons] at h
        exact h.1
      rw [List.dropWhile_cons, pySpaceB_eq_false_of_isDigit d hd]
      simp

theorem pyStrip_of_all_digits (ds : List Char) (h : ds.all Char.isDigit = true) :
    pyStrip ds = ds := by
  unfold pyStrip
  rw [dropWhile_pySpaceB_of_all_digits ds h,
      dropWhile_pySpaceB_of_all_digits ds.reverse (by simpa using h),
      List.reverse_reverse]

theorem parsePyInt_of_all_digits (ds : List Char) (hne : ds ≠ [])
    (h : ds.all Char.isDigit = true) :
    parsePyInt ds = some ((digitsToNat ds : Nat) : Int) := by
  unfold parsePyInt
  rw [pyStrip_of_all_digits ds h]
  cases ds with
  | nil => exact absurd rfl hne
  | cons c0 ds' =>
      have hc0 : c0.isDigit = true := by
        simp [List.all_cons] at h
        exact h.1
      have hminus : ¬ c0 = '-' := by
        intro hh; subst hh; simp [Char.isDigit] at hc0
      have hplus : ¬ c0 = '+' := by
        intro hh; subst hh; simp [Char.isDigit] at hc0
      simp [hminus, hplus, h]

theorem isSpecialChar_eq_false_of_isDigit (c : Char) (h : c.isDigit = true) :
    isSpecialChar c = false := by
  unfold isSpecialChar asciiAlnum
  simp [h]

/-- The type of link found in the schema file (`SchemaRefType` in the
source). -/
inductive SchemaRefType where
  | INTERNAL
  | EXTERNAL
  | EXTERNAL_INTERNAL
deriving DecidableEq

/-- `evaluate_ref`: classify a `$ref` value.  A non-string raises `TypeError`;
indexing `ref_value[0]` on an empty string raises `IndexError`; a string
matching none of the three shapes raises `ValueError`. -/
def evaluate_ref (ref_value : Json) : Except PyErr SchemaRefType :=
  match ref_value with
  | Json.str s =>
      match s.data with
      | [] => .error PyErr.indexError
      | c :: cs =>
          if c = '.' ∧ '#' ∈ c :: cs then .ok SchemaRefType.EXTERNAL_INTERNAL
          else if c = '.' then .ok SchemaRefType.EXTERNAL
          else if c = '#' then .ok SchemaRefType.INTERNAL
          else .error PyErr.valueError
  | _ => .error PyErr.typeError

/-- `key.lower()` on a Python string. -/
def strLower (s : String) : String := String.mk (strToLower s.data)

mutual

/-- The recursive helper of `walk_dictionary`: first key (depth-first, in
insertion order, compared case-insensitively) equal to the target, with its
dotted path and value. -/
def walk_dict_helper : List (String × Json) → String → String → Option (String × Json)
  | [], _, _ => none
  | (key, value) :: rest, path, target_key =>
      let current_path := if path = "" then key else path ++ "." ++ key
      if strLower key = strLower target_key then some (current_path, value)
      else
        match walk_dict_value value current_path target_key with
        | some out => some out
        | none => walk_dict_helper rest path target_key

/-- Descent of `walk_dict_helper` into one value: only nested mappings are
searched. -/
def walk_dict_value : Json → String → String → Option (String × Json)
  | Json.obj e, current_path, target_key => walk_dict_helper e current_path target_key
  | _, _, _ => none

end

/-- `walk_dictionary`: depth-first case-insensitive key search; `TypeError`
when the input is not a mapping, `KeyError` when no key matches. -/
def walk_dictionary (dictionary : Json) (target_key : String) : Except PyErr (String × Json) :=
  match dictionary with
  | Json.obj e =>
      match walk_dict_helper e "" target_key with
      | some out => .ok out
      | none => .error PyErr.keyError
  | _ => .error PyErr.typeError

/-- The annotation-field whitelist of `cache_json_properties`. -/
def fields_to_keep : List String :=
  ["nullable", "title", "description", "x-virtual", "format"]

/-- One field of `cache_json_properties`: record the field when the recursive
search finds it with a truthy value; a falsy `value_found` or a missing key
(`KeyError`, caught with `continue`) is skipped.  The argument is always a
mapping here, so no other exception can escape `walk_dictionary`. -/
def cacheStep (arb_object : List (String × Json)) (acc : List (String × Json))
    (field : String) : List (String × Json) :=
  match walk_dictionary (Json.obj arb_object) field with
  | .ok (_, value_found) =>
      if value_found.truthy then dictSet acc field value_found else acc
  | .error _ => acc

/-- `cache_json_properties`: extract whitelisted annotation fields from a
reference site (passed as a deep copy of the site mapping) to re-apply after
a merge; `none` models the `return None` when nothing was captured. -/
def cache_json_properties (arb_object : List (String × Json)) :
    Option (List (String × Json)) :=
  let cached := fields_to_keep.foldl (cacheStep arb_object) []
  if cached.isEmpty then none else some cached

mutual

/-- `walk_references` on the entries of a mapping: collect every value under
a key literally named `$ref` (without recursing into it); recurse into
mapping values, and into list values only when every element is a mapping. -/
def walkRefsEntries : List (String × Json) → List Json
  | [] => []
  | (key, value) :: rest =>
      (if key = "$ref" then [value] else walkRefsValue value) ++ walkRefsEntries rest

def walkRefsValue : Json → List Json
  | Json.obj e => walkRefsEntries e
  | Json.arr l => if l.all Json.isObj then walkRefsList l else []
  | _ => []

def walkRefsList : List Json → List Json
  | [] => []
  | x :: xs => walkRefsValue x ++ walkRefsList xs

end

/-- `walk_references` as the scheduler calls it: `schema.items()` raises
`AttributeError` when the loaded document is not a mapping. -/
def walk_references (schema : Json) : Except PyErr (List Json) :=
  match schema with
  | Json.obj e => .ok (walkRefsEntries e)
  | _ => .error PyErr.attributeError

/-- A `$ref`/`sub_schema` pair as gathered by the scheduler (an entry of its
`ref_schemas` list). -/
structure SubSchemaBinding where
  ref : Json
  sub_schema : Json
deriving DecidableEq

/-- `find_sub_schema_by_ref_value`: the `sub_schema` of the first binding
whose `$ref` equals `ref_value`. -/
def find_sub_schema_by_ref_value : List SubSchemaBinding → Json → Option Json
  | [], _ => none
  | b :: rest, ref_value =>
      if b.ref = ref_value then some b.sub_schema
      else find_sub_schema_by_ref_value rest ref_value

/-- Elements of a sequence passed to `dict.update`: each must be a
key/value pair.  (Python also unpacks two-character strings; such exotic
iterables never occur in schema documents and are mapped to `ValueError`.) -/
def keptEntriesOfList : List Json → Except PyErr (List (String × Json))
  | [] => .ok []
  | x :: rest =>
      match x with
      | Json.arr [Json.str k, v] =>
          match keptEntriesOfList rest with
          | .ok tail => .ok ((k, v) :: tail)
          | .error e => .error e
      | _ => .error PyErr.valueError

/-- `kept_keys.update(value)` for the value of a preserved key: a mapping
contributes its entries; a non-empty string or malformed sequence raises
`ValueError`; a non-iterable value raises `TypeError`. -/
def keptEntriesOf : Json → Except PyErr (List (String × Json))
  | Json.obj e => .ok e
  | Json.str s => if s = "" then .ok [] else .error PyErr.valueError
  | Json.arr l => keptEntriesOfList l
  | _ => .error PyErr.typeError

/-- The `kept_keys` accumulation of `walk_and_merge_references`: for each key
in `keys_to_keep`, merge the entries of its value at the site into the
accumulator; a missing key raises `KeyError`, which the source catches and
logs (the key is skipped). -/
def buildKeptGo (site : List (String × Json)) :
    List String → List (String × Json) → Except PyErr (List (String × Json))
  | [], acc => .ok acc
  | k :: ks, acc =>
      match dictLookup k site with
      | none => buildKeptGo site ks acc
      | some v =>
          match keptEntriesOf v with
          | .error e => .error e
          | .ok es => buildKeptGo site ks (dictUpdate acc es)

def buildKept (site : List (String × Json)) (keys_to_keep : List String) :
    Except PyErr (List (String × Json)) :=
  buildKeptGo site keys_to_keep []

/-- The substitution of `walk_and_merge_references` at a site whose `$ref`
matched a non-empty mapping fragment: capture annotations from the (copied)
site, capture preserved-key entries, clear the site, write the fragment's
entries, re-apply preserved entries when any were captured, then re-apply
cached annotation fields when any were captured. -/
def mergeSite (site : List (String × Json)) (frag : List (String × Json))
    (keys_to_keep : List String) : Except PyErr (List (String × Json)) :=
  let cached_fields := cache_json_properties site
  match buildKept site keys_to_keep with
  | .error e => .error e
  | .ok kept_keys =>
      let m1 := dictUpdate [] frag
      let m2 := if kept_keys.isEmpty then m1 else dictUpdate m1 kept_keys
      match cached_fields with
      | some c => .ok (dictUpdate m2 c)
      | none => .ok m2

mutual

/-- One site of `walk_and_merge_references`: iterate over a snapshot
(`arb_object.copy().items()`) of the site's entries while mutating the
current site.  `substituted` records that the site was already cleared and
rewritten; after that, recursions into the snapshot's remaining values act on
detached objects, so their results are discarded while their exceptions still
propagate. -/
def wamrEntries (ref_schemas : List SubSchemaBinding) (keys_to_keep : List String) :
    List (String × Json) → List (String × Json) → Bool →
      Except PyErr (List (String × Json))
  | [], current, _ => .ok current
  | (key, value) :: rest, current, substituted =>
      if key = "$ref" then
        match find_sub_schema_by_ref_value ref_schemas value with
        | some (Json.obj fe) =>
            if !fe.isEmpty then
              match mergeSite current fe keys_to_keep with
              | .error e => .error e
              | .ok merged => wamrEntries ref_schemas keys_to_keep rest merged true
            else wamrEntries ref_schemas keys_to_keep rest current substituted
        | some _ => wamrEntries ref_schemas keys_to_keep rest current substituted
        | none => wamrEntries ref_schemas keys_to_keep rest current substituted
      else
        match wamrValue ref_schemas value with
        | .error err => .error err
        | .ok v' =>
            if substituted then wamrEntries ref_schemas keys_to_keep rest current substituted
            else
              match value with
              | Json.obj _ =>
                  wamrEntries ref_schemas keys_to_keep rest (dictSet current key v') substituted
              | Json.arr _ =>
                  wamrEntries ref_schemas keys_to_keep rest (dictSet current key v') substituted
              | _ => wamrEntries ref_schemas keys_to_keep rest current substituted

/-- The recursive call of `walk_and_merge_references` on one nested value:
nested calls always pass `["i6RefCollectionName"]` as the keys to keep
(hard-coded at the recursive call sites in the source); a mapping is
processed as a site, each element of a sequence is processed in turn, and
any other value is returned unchanged. -/
def wamrValue (ref_schemas : List SubSchemaBinding) : Json → Except PyErr Json
  | Json.obj e =>
      match wamrEntries ref_schemas ["i6RefCollectionName"] e e false with
      | .error err => .error err
      | .ok es => .ok (Json.obj es)
  | Json.arr l =>
      match wamrList ref_schemas l with
      | .error err => .error err
      | .ok l' => .ok (Json.arr l')
  | j => .ok j

def wamrList (ref_schemas : List SubSchemaBinding) : List Json → Except PyErr (List Json)
  | [] => .ok []
  | x :: xs =>
      match wamrValue ref_schemas x with
      | .error err => .error err
      | .ok x' =>
          match wamrList ref_schemas xs with
          | .error err => .error err
          | .ok tail => .ok (x' :: tail)

end

/-- `walk_and_merge_references`: replace `$ref` occurrences in a document
with the gathered sub-schemas.  Non-mapping input is returned unchanged; the
`file_path` parameter of the source only toggles a logging level and is
dropped. -/
def walk_and_merge_references (arb_object : Json) (ref_schemas : List SubSchemaBinding)
    (keys_to_keep : List String) : Except PyErr Json :=
  match arb_object with
  | Json.obj entries =>
      match wamrEntries ref_schemas keys_to_keep entries entries false with
      | .error e => .error e
      | .ok es => .ok (Json.obj es)
  | j => .ok j

/-- `extract_json_schema_from_oas`: the `properties` sub-object when the
mapping has one, else the whole mapping (the `len(top_level_keys)` test is
subsumed: an empty mapping has no `properties` key).  `.keys()` on a
non-mapping raises `AttributeError`. -/
def extract_json_schema_from_oas (arb_object : Json) : Except PyErr Json :=
  match arb_object with
  | Json.obj e =>
      match dictLookup "properties" e with
      | some p => .ok p
      | none => .ok (Json.obj e)
  | _ => .error PyErr.attributeError

/-- `_is_targeting_list_item`: when the last pointer segment parses as an
integer it is popped and returned as the list index; `ValueError` (parse
failure) and `IndexError` (no segments) are caught, returning no index. -/
def popListIndex (keys_from_ref_string : List (List Char)) :
    List (List Char) × Option Int :=
  match keys_from_ref_string.getLast? with
  | none => (keys_from_ref_string, none)
  | some last =>
      match parsePyInt last with
      | some i => (keys_from_ref_string.dropLast, some i)
      | none => (keys_from_ref_string, none)

/-- Truthiness of the `list_index` variable (`None` and `0` are falsy). -/
def liTruthy : Option Int → Bool
  | none => false
  | some i => i != 0

/-- Negative indices count from the end, as in Python; out-of-bounds raises
`IndexError`. -/
def pyListGet (l : List Json) (i : Int) : Except PyErr Json :=
  let j : Int := if i < 0 then i + l.length else i
  if 0 ≤ j ∧ j < (l.length : Int) then
    match l.get? j.toNat with
    | some x => .ok x
    | none => .error PyErr.indexError
  else .error PyErr.indexError

/-- `current_output[list_index]` after traversal: sequence indexing, string
indexing (yielding a one-character string), `KeyError` for a mapping (JSON
mappings have no integer keys), `TypeError` otherwise. -/
def pyIndex (cur : Json) (i : Int) : Except PyErr Json :=
  match cur with
  | Json.arr l => pyListGet l i
  | Json.str s =>
      let cs := s.data
      let j : Int := if i < 0 then i + cs.length else i
      if 0 ≤ j ∧ j < (cs.length : Int) then
        match cs.get? j.toNat with
        | some c => .ok (Json.str (String.mk [c]))
        | none => .error PyErr.indexError
      else .error PyErr.indexError
  | Json.obj _ => .error PyErr.keyError
  | _ => .error PyErr.typeError

/-- The key-traversal loop of `fetch_value_from_ref`: each key indexes into
the current value, except that a sequence is passed over unchanged when the
`list_index` variable is truthy; `KeyError` for a missing mapping key,
`TypeError` for indexing anything else with a string key. -/
def traverseKeys (keys : List (List Char)) (list_index : Option Int) (data : Json) :
    Except PyErr Json :=
  match keys with
  | [] => .ok data
  | k :: rest =>
      match data with
      | Json.arr l =>
          if liTruthy list_index then traverseKeys rest list_index (Json.arr l)
          else .error PyErr.typeError
      | Json.obj e =>
          match dictLookup (String.mk k) e with
          | some v => traverseKeys rest list_index v
          | none => .error PyErr.keyError
      | _ => .error PyErr.typeError

/-- The body of `fetch_value_from_ref` on the reference string's characters,
after the type and shape guards: split the pointer, pop a trailing list
index, traverse, then either build the single-member enum fragment (when the
lowercased reference contains `/enum/` and an index is present), index the
result, or return it. -/
def fetchCore (cs : List Char) (data_dict : Json) : Except PyErr Json :=
  let keys0 := splitOnChar '/' (cs.drop 2)
  let p := popListIndex keys0
  let keys := p.1
  let list_index := p.2
  match traverseKeys keys list_index data_dict with
  | .error e => .error e
  | .ok current =>
      if ("/enum/".data <:+: strToLower cs) ∧ list_index ≠ none then
        match current, list_index with
        | Json.arr l, some i =>
            (match pyListGet l i with
             | .error e => .error e
             | .ok x =>
                 .ok (Json.obj [("enum", Json.arr [x]),
                   ("type", Json.str (if l.all Json.isInt then "number" else "string"))]))
        | _, _ => .error PyErr.typeError
      else
        match list_index with
        | some i => pyIndex current i
        | none => .ok current

/-- `fetch_value_from_ref`: guards first (`ValueError` for a string not
starting with `#` or ending in a special character, `ValueError` for an
integer, the slicing/`split` failures for the remaining non-string types),
then the core. -/
def fetch_value_from_ref (ref_string : Json) (data_dict : Json) : Except PyErr Json :=
  match ref_string with
  | Json.str s =>
      if s.data.head? ≠ some '#' then .error PyErr.valueError
      else if isSpecialChar (s.data.getLastD ' ') then .error PyErr.valueError
      else fetchCore s.data data_dict
  | Json.int _ => .error PyErr.valueError
  | Json.bool _ => .error PyErr.typeError
  | Json.null => .error PyErr.typeError
  | Json.arr _ => .error PyErr.attributeError
  | Json.obj _ => .error PyErr.typeError

/-- Segments of a POSIX path string. -/
def pathSegsOf (cs : List Char) : List (List Char) :=
  splitOnChar '/' cs

/-- Normalise path segments: empty and `.` segments vanish, `..` pops (a
leading `..` at the root stays at the root, as `resolve(strict=False)`
does for absolute paths). -/
def normSegs (segs : List (List Char)) : List (List Char) :=
  segs.foldl
    (fun acc seg =>
      if seg = [] ∨ seg = ".".data then acc
      else if seg = "..".data then acc.dropLast
      else acc ++ [seg])
    []

/-- Render normalised segments as an absolute path. -/
def renderAbsPath (segs : List (List Char)) : String :=
  String.mk ('/' :: joinWith '/' segs)

/-- `Path(p).resolve().parent` for an absolute file path: normalise and drop
the last segment. -/
def parentDir (p : String) : String :=
  renderAbsPath ((normSegs (pathSegsOf p.data)).dropLast)

/-- `get_path_relative_to`: `(current_location / pointing_to).resolve()` for
an absolute directory and a relative link, modelled as concatenation followed
by normalisation (no symlinks). -/
def get_path_relative_to (pointing_to : List Char) (current_location : String) : String :=
  renderAbsPath (normSegs (pathSegsOf (current_location.data ++ '/' :: pointing_to)))

/-- The state of `resolve_references` between steps: the deferred file list,
the file system (path to parsed document, written back in place by
`save_dict_to_json`), and the `oas_spec` local variable, which is only bound
once the external-internal branch has loaded an external file. -/
structure SchedState where
  deferred_files : List String
  fs : List (String × Json)
  oas_spec_var : Option Json
deriving DecidableEq

/-- `dictLookup` on the file system plays `open` + `json.load` (a missing
path raises `FileNotFoundError`); `dictSet` plays `save_dict_to_json`. -/
def fsGet (fs : List (String × Json)) (path : String) : Except PyErr Json :=
  match dictLookup path fs with
  | some doc => .ok doc
  | none => .error PyErr.fileNotFoundError

/-- The per-reference loop of `resolve_references` (lines 507-563): classify
each reference; `INTERNAL` fetches within the source document and appends a
binding; `EXTERNAL_INTERNAL` resolves the external path against the source
file's directory, loads it (binding the `oas_spec` variable), probes the
pointer against the full document (result discarded, errors kept), extracts
the schema portion, defers the file (`break`) when that portion still has
references, and otherwise fetches the pointer within the extracted portion;
a reference classified `EXTERNAL` matches no branch and is skipped.  Returns
the gathered bindings, the (possibly re-bound) `oas_spec` variable, and the
first raised exception, if any. -/
def refLoop (fs : List (String × Json)) (file_path : String) (source_oas_spec : Json) :
    List Json → List SubSchemaBinding → Option Json →
      List SubSchemaBinding × Option Json × Option PyErr
  | [], sub_schemas, oas => (sub_schemas, oas, none)
  | ref_link :: rest, sub_schemas, oas =>
      match evaluate_ref ref_link with
      | .error e => (sub_schemas, oas, some e)
      | .ok SchemaRefType.INTERNAL =>
          (match fetch_value_from_ref ref_link source_oas_spec with
           | .error e => (sub_schemas, oas, some e)
           | .ok sub_schema =>
               refLoop fs file_path source_oas_spec rest
                 (sub_schemas ++ [⟨ref_link, sub_schema⟩]) oas)
      | .ok SchemaRefType.EXTERNAL =>
          refLoop fs file_path source_oas_spec rest sub_schemas oas
      | .ok SchemaRefType.EXTERNAL_INTERNAL =>
          match ref_link with
          | Json.str s =>
              let parts := splitOnChar '#' s.data
              let referenced_oas_absolute_path :=
                get_path_relative_to (parts.headD []) (parentDir file_path)
              let sub_schema_location : List Char := '#' :: parts.getLastD []
              (match fsGet fs referenced_oas_absolute_path with
               | .error e => (sub_schemas, oas, some e)
               | .ok oas_spec =>
                   match fetch_value_from_ref (Json.str (String.mk sub_schema_location))
                       oas_spec with
                   | .error e => (sub_schemas, some oas_spec, some e)
                   | .ok _ =>
                       match extract_json_schema_from_oas oas_spec with
                       | .error e => (sub_schemas, some oas_spec, some e)
                       | .ok sub_schema =>
                           match walk_references sub_schema with
                           | .error e => (sub_schemas, some oas_spec, some e)
                           | .ok has_refs =>
                               if !has_refs.isEmpty then (sub_schemas, some oas_spec, none)
                               else
                                 match fetch_value_from_ref
                                     (Json.str (String.mk sub_schema_location)) sub_schema with
                                 | .error e => (sub_schemas, some oas_spec, some e)
                                 | .ok fragment =>
                                     refLoop fs file_path source_oas_spec rest
                                       (sub_schemas ++ [⟨ref_link, fragment⟩]) (some oas_spec))
          | _ => (sub_schemas, oas, some PyErr.typeError)

/-- One deferred file of a `resolve_references` pass (lines 488-583): load
it, collect references; with none, drop it from the deferred list; otherwise
run the reference loop, and if any bindings were gathered merge them in,
write the file back, and re-check the `oas_spec` variable — not the resolved
document — for remaining references (raising `NameError` when that variable
was never bound), dropping the file only when that check finds none.
Returns the new state, the first exception, and whether the file was
removed from the deferred list. -/
def processFile (st : SchedState) (file_path : String) :
    SchedState × Option PyErr × Bool :=
  match fsGet st.fs file_path with
  | .error e => (st, some e, false)
  | .ok source_oas_spec =>
      match walk_references source_oas_spec with
      | .error e => (st, some e, false)
      | .ok refs_found =>
          if refs_found.isEmpty then
            ({ st with deferred_files := st.deferred_files.erase file_path }, none, true)
          else
            let r := refLoop st.fs file_path source_oas_spec refs_found [] st.oas_spec_var
            let st1 : SchedState := { st with oas_spec_var := r.2.1 }
            match r.2.2 with
            | some e => (st1, some e, false)
            | none =>
                if !r.1.isEmpty then
                  match walk_and_merge_references source_oas_spec r.1
                      ["i6RefCollectionName"] with
                  | .error e => (st1, some e, false)
                  | .ok resolved =>
                      let st2 : SchedState := { st1 with fs := dictSet st1.fs file_path resolved }
                      match st2.oas_spec_var with
                      | none => (st2, some PyErr.nameError, false)
                      | some oas_spec =>
                          match walk_references oas_spec with
                          | .error e => (st2, some e, false)
                          | .ok still_refs_found =>
                              if still_refs_found.isEmpty then
                                ({ st2 with
                                    deferred_files := st2.deferred_files.erase file_path },
                                  none, true)
                              else (st2, none, false)
                else (st1, none, false)

/-- The `for file_path in deferred_files` loop with CPython list-iterator
semantics: the iterator advances by position, so removing the current file
shifts the next one into its slot and the iterator skips it for the rest of
the pass.  The fuel argument only bounds the iteration (the position grows
at every step while the list never grows, so `deferred_files.length` steps
always suffice). -/
def passLoop : Nat → Nat → SchedState → SchedState × Option PyErr
  | 0, _, st => (st, none)
  | Nat.succ fuel, i, st =>
      if h : i < st.deferred_files.length then
        let file_path := st.deferred_files.get ⟨i, h⟩
        let r := processFile st file_path
        match r.2.1 with
        | some e => (r.1, some e)
        | none => passLoop fuel (i + 1) r.1
      else (st, none)

/-- One iteration of the `while deferred_files:` loop of
`resolve_references`. -/
def resolve_references_pass (st : SchedState) : SchedState × Option PyErr :=
  passLoop st.deferred_files.length 0 st

/-- `n` iterations of the `while deferred_files:` loop, stopping early when
the deferred list empties or an exception propagates.  The source's loop has
no other exit: its full behaviour is this function in the limit. -/
def resolve_references_run : Nat → SchedState → SchedState × Option PyErr
  | 0, st => (st, none)
  | Nat.succ n, st =>
      if st.deferred_files.isEmpty then (st, none)
      else
        let p := resolve_references_pass st
        match p.2 with
        | some e => (p.1, some e)
        | none => resolve_references_run n p.1

/-! ## Claim checks -/

/-- A document whose only reference is an internal pointer to a fragment in
the same document. -/
def internalOnlyDoc : Json :=
  Json.obj [("a", Json.obj [("$ref", Json.str "#/defs/x")]),
    ("defs", Json.obj [("x", Json.obj [("type", Json.str "string")])])]

/-- The same document after the reference site has been substituted. -/
def internalOnlyDocResolved : Json :=
  Json.obj [("a", Json.obj [("type", Json.str "string")]),
    ("defs", Json.obj [("x", Json.obj [("type", Json.str "string")])])]

/-- A fresh run over a single file holding `internalOnlyDoc`. -/
def internalOnlyState : SchedState :=
  ⟨["/t/a.json"], [("/t/a.json", internalOnlyDoc)], none⟩

/-- C1: for a file whose only reference is an internal pointer to a fragment
of the same document, one scheduler pass does substitute the resolved
fragment at the reference site and writes the file back (leaving `defs.x`
unchanged), but it does not remove the file from the deferred set: the
post-substitution re-check reads the `oas_spec` local variable — bound only
by the external-internal branch, hence still unbound on this run — so the
pass raises `NameError` instead of re-checking the resolved document, and
the file is never removed. -/
theorem C1_internal_single_pass :
    resolve_references_pass internalOnlyState
      = (⟨["/t/a.json"], [("/t/a.json", internalOnlyDocResolved)], none⟩,
         some PyErr.nameError)
    ∧ (resolve_references_pass internalOnlyState).1.deferred_files = ["/t/a.json"]
    ∧ dictLookup "/t/a.json" (resolve_references_pass internalOnlyState).1.fs
        = some internalOnlyDocResolved := by
  refine ⟨by decide, by decide, by decide⟩

/-- A file whose only reference is classified `External`, next to the
external file it points at — which exists, is loadable, and has a
`properties` sub-object. -/
def externalRefState : SchedState :=
  ⟨["/t/a.json"],
   [("/t/a.json", Json.obj [("x", Json.obj [("$ref", Json.str "./b.json")])]),
    ("/t/b.json",
      Json.obj [("properties", Json.obj [("name", Json.obj [("type", Json.str "string")])])])],
   none⟩

/-- C2: a reference classified `External` is never resolved: the scheduler's
per-reference dispatch has branches only for `INTERNAL` and
`EXTERNAL_INTERNAL`, so the external file is never loaded, no binding is
gathered, nothing is substituted, and a full pass leaves the state — file
still deferred — completely unchanged, even though the referenced file is
present and loadable. -/
theorem C2_external_skipped :
    evaluate_ref (Json.str "./b.json") = .ok SchemaRefType.EXTERNAL
    ∧ refLoop externalRefState.fs "/t/a.json"
        (Json.obj [("x", Json.obj [("$ref", Json.str "./b.json")])])
        [Json.str "./b.json"] [] none = ([], none, none)
    ∧ resolve_references_pass externalRefState = (externalRefState, none)
    ∧ externalRefState.deferred_files = ["/t/a.json"]
    ∧ fsGet externalRefState.fs "/t/b.json"
        = .ok (Json.obj [("properties",
            Json.obj [("name", Json.obj [("type", Json.str "string")])])]) := by
  refine ⟨by decide, by decide, by decide, by decide, by decide⟩

/-- A file set on which no pass makes progress: a single file with an
external-kind reference (which the dispatch skips forever), its target
present and fully resolved. -/
def stuckState : SchedState :=
  ⟨["/t/c.json"],
   [("/t/c.json", Json.obj [("q", Json.obj [("$ref", Json.str "./d.json")])]),
    ("/t/d.json", Json.obj [("type", Json.str "string")])],
   none⟩

/-- C4: `resolve_references` does not terminate on every input: on
`stuckState` every pass returns the state unchanged with no exception, and
the deferred list never empties, so the source's `while deferred_files:`
loop — which has no progress detection and no stop-and-report path — runs
forever instead of stopping and reporting the stuck files. -/
theorem C4_no_progress_forever :
    ∀ n : Nat, resolve_references_run n stuckState = (stuckState, none)
      ∧ stuckState.deferred_files ≠ [] := by
  intro n
  refine ⟨?_, by decide⟩
  induction n with
  | zero => rfl
  | succ n ih =>
      have hne : stuckState.deferred_files.isEmpty = false := by decide
      have hpass : resolve_references_pass stuckState = (stuckState, none) := by decide
      simp only [resolve_references_run, hne, Bool.false_eq_true, if_false, hpass]
      exact ih

/-- An external document that still contains a reference of its own (under
`legacy`), and whose default `properties` portion resolves the pointer
`#/components/schemas/X` differently (`"string"`) from the full document
(`"number"`). -/
def extDocWithRefs : Json :=
  Json.obj [
    ("properties", Json.obj [("components",
        Json.obj [("schemas", Json.obj [("X", Json.obj [("type", Json.str "string")])])])]),
    ("legacy", Json.obj [("$ref", Json.str "#/properties")]),
    ("components", Json.obj [("schemas",
        Json.obj [("X", Json.obj [("type", Json.str "number")])])])]

/-- A file whose only reference is external-internal into
`extDocWithRefs`. -/
def externalInternalState : SchedState :=
  ⟨["/t/a.json"],
   [("/t/a.json",
      Json.obj [("p", Json.obj [("$ref", Json.str "./b.json#/components/schemas/X")])]),
    ("/t/b.json", extDocWithRefs)],
   none⟩

/-- C3 counterexample: the external document still contains a reference
(`#/properties`), so by the claim the referencing file would be blocked for
the pass with nothing substituted — yet the pass completes without blocking
and substitutes the site.  Moreover the substituted fragment is
`{type: "string"}`, the value located within the document's `properties`
sub-object, not `{type: "number"}`, the value the claimed lookup in the
loaded external document yields. -/
theorem C3_counterexample :
    walk_references extDocWithRefs = .ok [Json.str "#/properties"]
    ∧ fetch_value_from_ref (Json.str "#/components/schemas/X") extDocWithRefs
        = .ok (Json.obj [("type", Json.str "number")])
    ∧ (resolve_references_pass externalInternalState).2 = none
    ∧ dictLookup "/t/a.json" (resolve_references_pass externalInternalState).1.fs
        = some (Json.obj [("p", Json.obj [("type", Json.str "string")])]) := by
  refine ⟨by decide, by decide, by decide, by decide⟩

/-- C3 as amended: for an `EXTERNAL_INTERNAL` reference the scheduler
resolves the relative file portion against the referencing file's directory
and loads that document (also probing the pointer against it), but then
works with `extract_json_schema_from_oas` of the loaded document — its
`properties` sub-object when present, else the whole document: when that
extracted portion still contains references, the file is blocked for the
rest of the pass (the remaining references are not processed and no binding
is added for this one); otherwise the binding's fragment is produced by
locating the pointer within the extracted portion. -/
theorem C3_external_internal_amended :
    ∀ (fs : List (String × Json)) (file_path : String) (src : Json) (s : String)
      (rest : List Json) (subs : List SubSchemaBinding) (oas : Option Json)
      (oas_spec probe : Json),
      evaluate_ref (Json.str s) = .ok SchemaRefType.EXTERNAL_INTERNAL →
      fsGet fs (get_path_relative_to ((splitOnChar '#' s.data).headD [])
          (parentDir file_path)) = .ok oas_spec →
      fetch_value_from_ref
          (Json.str (String.mk ('#' :: (splitOnChar '#' s.data).getLastD []))) oas_spec
        = .ok probe →
      (∀ ext r rs, extract_json_schema_from_oas oas_spec = .ok ext →
          walk_references ext = .ok (r :: rs) →
          refLoop fs file_path src (Json.str s :: rest) subs oas
            = (subs, some oas_spec, none))
      ∧ (∀ ext fragment, extract_json_schema_from_oas oas_spec = .ok ext →
          walk_references ext = .ok [] →
          fetch_value_from_ref
              (Json.str (String.mk ('#' :: (splitOnChar '#' s.data).getLastD []))) ext
            = .ok fragment →
          refLoop fs file_path src (Json.str s :: rest) subs oas
            = refLoop fs file_path src rest (subs ++ [⟨Json.str s, fragment⟩])
                (some oas_spec)) := by
  intro fs file_path src s rest subs oas oas_spec probe hev hload hprobe
  constructor
  · intro ext r rs hext hrefs
    simp only [refLoop, hev, hload, hprobe, hext, hrefs]
    simp
  · intro ext fragment hext hrefs hfetch
    simp only [refLoop, hev, hload, hprobe, hext, hrefs, hfetch]
    simp

/-- An external document with its own reference and no `properties` key: the
extracted portion is the whole document, so the blocked branch fires. -/
def extDocBlocked : Json :=
  Json.obj [("x", Json.obj [("type", Json.str "number")]),
    ("y", Json.obj [("$ref", Json.str "#/x")])]

/-- An external document whose `properties` portion is reference-free and
resolves the pointer `#/x` to a different value than the full document. -/
def extDocQuiet : Json :=
  Json.obj [("properties", Json.obj [("x", Json.obj [("t", Json.str "a")])]),
    ("x", Json.obj [("type", Json.str "number")])]

/-- Witness for the amended C3, at concrete inputs: the blocked branch stops
the loop with the bindings unchanged and the variable bound, and the quiet
branch produces the binding fetched from the extracted `properties`
portion. -/
theorem C3_external_internal_amended_witness :
    refLoop [("/t/b.json", extDocBlocked)] "/t/a.json" Json.null
        [Json.str "./b.json#/x"] [] none = ([], some extDocBlocked, none)
    ∧ refLoop [("/t/b.json", extDocQuiet)] "/t/a.json" Json.null
        [Json.str "./b.json#/x"] [] none
      = ([⟨Json.str "./b.json#/x", Json.obj [("t", Json.str "a")]⟩], some extDocQuiet, none) := by
  constructor
  · exact (C3_external_internal_amended [("/t/b.json", extDocBlocked)] "/t/a.json" Json.null
      "./b.json#/x" [] [] none extDocBlocked (Json.obj [("type", Json.str "number")])
      (by decide) (by decide) (by decide)).1 extDocBlocked (Json.str "#/x") []
      (by decide) (by decide)
  · have h := (C3_external_internal_amended [("/t/b.json", extDocQuiet)] "/t/a.json" Json.null
      "./b.json#/x" [] [] none extDocQuiet (Json.obj [("type", Json.str "number")])
      (by decide) (by decide) (by decide)).2 (Json.obj [("x", Json.obj [("t", Json.str "a")])])
      (Json.obj [("t", Json.str "a")]) (by decide) (by decide) (by decide)
    rw [h]
    decide

theorem NoDupKeys_dictSet (k : String) (v : Json) (d : List (String × Json))
    (h : NoDupKeys d) : NoDupKeys (dictSet d k v) := by
  induction d with
  | nil => simp [dictSet, NoDupKeys, keysOf]
  | cons hd tl ih =>
      obtain ⟨k₀, v₀⟩ := hd
      unfold NoDupKeys keysOf at h ⊢
      simp only [List.map_cons, List.nodup_cons] at h
      by_cases h₀ : k₀ = k
      · simp only [dictSet, if_pos h₀, List.map_cons, List.nodup_cons]
        exact h
      · simp only [dictSet, if_neg h₀, List.map_cons, List.nodup_cons]
        constructor
        · intro hmem
          have := (mem_keysOf_dictSet k₀ k v tl).mp (by simpa [keysOf] using hmem)
          rcases this with hc | hc
          · exact h.1 (by simpa [keysOf] using hc)
          · exact h₀ hc
        · exact ih h.2

theorem NoDupKeys_cacheFold (site : List (String × Json)) :
    ∀ (fields : List String) (acc : List (String × Json)),
      NoDupKeys acc → NoDupKeys (fields.foldl (cacheStep site) acc) := by
  intro fields
  induction fields with
  | nil => intro acc h; exact h
  | cons f fs ih =>
      intro acc h
      have hstep : NoDupKeys (cacheStep site acc f) := by
        unfold cacheStep
        rcases walk_dictionary (Json.obj site) f with _ | ⟨p, v⟩
        · exact h
        · by_cases ht : v.truthy
          · simp only [ht, if_true]
            exact NoDupKeys_dictSet f v acc h
          · simp only [ht, if_false]
            exact h
      exact ih _ hstep

theorem mem_keysOf_cacheFold (site : List (String × Json)) :
    ∀ (fields : List String) (acc : List (String × Json)) (k : String),
      k ∈ keysOf (fields.foldl (cacheStep site) acc) →
      k ∈ keysOf acc ∨ k ∈ fields := by
  intro fields
  induction fields with
  | nil => intro acc k h; exact Or.inl h
  | cons f fs ih =>
      intro acc k h
      have hstep : k ∈ keysOf (cacheStep site acc f) → k ∈ keysOf acc ∨ k = f := by
        unfold cacheStep
        rcases walk_dictionary (Json.obj site) f with _ | ⟨p, v⟩
        · exact fun hh => Or.inl hh
        · by_cases ht : v.truthy
          · simp only [ht, if_true]
            exact fun hh => (mem_keysOf_dictSet k f v acc).mp hh
          · simp only [ht, if_false]
            exact fun hh => Or.inl hh
      rcases ih _ k h with hh | hh
      · rcases hstep hh with h1 | h1
        · exact Or.inl h1
        · exact Or.inr (by simp [h1])
      · exact Or.inr (by simp [hh])

/-- The captured annotation set always has distinct keys, all drawn from the
whitelist. -/
theorem cache_json_properties_sound (site c : List (String × Json))
    (h : cache_json_properties site = some c) :
    NoDupKeys c ∧ ∀ k, k ∈ keysOf c → k ∈ fields_to_keep := by
  unfold cache_json_properties at h
  rcases hemp : (fields_to_keep.foldl (cacheStep site) []).isEmpty with _ | _
  · simp only [hemp, Bool.false_eq_true, if_false] at h
    cases h
    constructor
    · exact NoDupKeys_cacheFold site fields_to_keep [] (by simp [NoDupKeys, keysOf])
    · intro k hk
      rcases mem_keysOf_cacheFold site fields_to_keep [] k hk with hh | hh
      · simp [keysOf] at hh
      · exact hh
  · simp only [hemp, if_true] at h
    cases h

theorem not_mem_keysOf_cacheFold_of_falsy (site : List (String × Json)) (f : String)
    (p : String) (v : Json) (hwalk : walk_dictionary (Json.obj site) f = .ok (p, v))
    (hfalsy : v.truthy = false) :
    ∀ (fields : List String) (acc : List (String × Json)),
      f ∉ keysOf acc → f ∉ keysOf (fields.foldl (cacheStep site) acc) := by
  intro fields
  induction fields with
  | nil => intro acc h; exact h
  | cons g gs ih =>
      intro acc h
      apply ih
      unfold cacheStep
      by_cases hg : g = f
      · subst hg
        rw [hwalk]
        simp [hfalsy]
        exact h
      · rcases hw : walk_dictionary (Json.obj site) g with e | ⟨q, w⟩
        · simp
          exact h
        · by_cases ht : w.truthy
          · simp [ht]
            intro hmem
            rcases (mem_keysOf_dictSet f g w acc).mp hmem with h1 | h1
            · exact h h1
            · exact hg h1.symm
          · simp only [Bool.not_eq_true] at ht
            simp [ht]
            exact h

/-- C5: whatever `cache_json_properties` captured at a reference site is
re-applied last by the substitution: for every captured field, the merged
site maps that field to the captured value, overriding any colliding entry
of the inlined fragment or of the preserved keys. -/
theorem C5_cached_fields_win :
    ∀ (site frag : List (String × Json)) (keys_to_keep : List String)
      (c : List (String × Json)) (f : String) (v : Json) (m : List (String × Json)),
      cache_json_properties site = some c →
      dictLookup f c = some v →
      mergeSite site frag keys_to_keep = .ok m →
      dictLookup f m = some v := by
  intro site frag ktk c f v m hcache hf hmerge
  unfold mergeSite at hmerge
  rcases hbk : buildKept site ktk with e | kept
  · rw [hbk] at hmerge
    cases hmerge
  · rw [hbk, hcache] at hmerge
    simp only [Except.ok.injEq] at hmerge
    subst hmerge
    exact dictLookup_dictUpdate_of_lookup f v c _
      (cache_json_properties_sound site c hcache).1 hf

/-- C5 witness: the site `{$ref: "#/x", nullable: true}` resolving to
`{type: "string", nullable: false}` merges to a map whose `nullable` is
`true`. -/
theorem C5_cached_fields_win_witness :
    cache_json_properties [("$ref", Json.str "#/x"), ("nullable", Json.bool true)]
      = some [("nullable", Json.bool true)]
    ∧ dictLookup "nullable"
        [("type", Json.str "string"), ("nullable", Json.bool true)]
      = some (Json.bool true) := by
  refine ⟨by decide, ?_⟩
  have h := C5_cached_fields_win
    [("$ref", Json.str "#/x"), ("nullable", Json.bool true)]
    [("type", Json.str "string"), ("nullable", Json.bool false)]
    ["i6RefCollectionName"]
    [("nullable", Json.bool true)] "nullable" (Json.bool true)
    [("type", Json.str "string"), ("nullable", Json.bool true)]
    (by decide) (by decide) (by decide)
  exact h

/-- C6 counterexample: a merge that succeeds (the binding's fragment is a
non-empty mapping) can leave a `$ref` key at the site — the fragment itself
carries one — so "the resulting site no longer contains a key named `$ref`"
fails as stated. -/
theorem C6_counterexample :
    walk_and_merge_references (Json.obj [("$ref", Json.str "#/a")])
        [⟨Json.str "#/a", Json.obj [("$ref", Json.str "./ext.json")]⟩]
        ["i6RefCollectionName"]
      = .ok (Json.obj [("$ref", Json.str "./ext.json")])
    ∧ dictLookup "$ref" [("$ref", Json.str "./ext.json")]
        = some (Json.str "./ext.json") := by
  refine ⟨by decide, by decide⟩

/-- C6 as amended: after a successful merge the fragment's entries, the
preserved entries and the captured annotation entries all coexist at the
site's top level, and the site no longer contains a `$ref` key provided
neither the fragment nor the preserved entries themselves carry one (the
captured annotations never can, their keys being drawn from the fixed
whitelist). -/
theorem C6_merge_invariant_amended :
    ∀ (site frag : List (String × Json)) (keys_to_keep : List String)
      (kept m : List (String × Json)),
      buildKept site keys_to_keep = .ok kept →
      mergeSite site frag keys_to_keep = .ok m →
      ("$ref" ∉ keysOf frag → "$ref" ∉ keysOf kept → dictLookup "$ref" m = none)
      ∧ (∀ k, k ∈ keysOf frag → k ∈ keysOf m)
      ∧ (∀ k, k ∈ keysOf kept → k ∈ keysOf m)
      ∧ (∀ c k, cache_json_properties site = some c → k ∈ keysOf c → k ∈ keysOf m) := by
  intro site frag ktk kept m hbk hmerge
  unfold mergeSite at hmerge
  rw [hbk] at hmerge
  rcases hc : cache_json_properties site with _ | c <;> rw [hc] at hmerge <;>
    simp only [Except.ok.injEq] at hmerge <;> subst hmerge
  · refine ⟨?_, ?_, ?_, ?_⟩
    · intro hfrag hkept
      rw [dictLookup_none_iff]
      by_cases hke : kept.isEmpty
      · simp only [hke, if_true]
        exact not_mem_keysOf_dictUpdate _ _ _ (by simp [keysOf]) hfrag
      · simp only [hke, Bool.false_eq_true, if_false]
        exact not_mem_keysOf_dictUpdate _ _ _
          (not_mem_keysOf_dictUpdate _ _ _ (by simp [keysOf]) hfrag) hkept
    · intro k hk
      by_cases hke : kept.isEmpty
      · simp only [hke, if_true]
        exact mem_keysOf_dictUpdate_right k frag [] hk
      · simp only [hke, Bool.false_eq_true, if_false]
        exact mem_keysOf_dictUpdate_left k kept _ (mem_keysOf_dictUpdate_right k frag [] hk)
    · intro k hk
      by_cases hke : kept.isEmpty
      · rw [List.isEmpty_iff.mp hke] at hk
        simp [keysOf] at hk
      · simp only [hke, Bool.false_eq_true, if_false]
        exact mem_keysOf_dictUpdate_right k kept _ hk
    · intro c k hcc
      exact absurd hcc (by simp)
  · refine ⟨?_, ?_, ?_, ?_⟩
    · intro hfrag hkept
      rw [dictLookup_none_iff]
      have hnc : "$ref" ∉ keysOf c := by
        intro hmem
        have := (cache_json_properties_sound site c hc).2 "$ref" hmem
        simp [fields_to_keep] at this
      by_cases hke : kept.isEmpty
      · simp only [hke, if_true]
        exact not_mem_keysOf_dictUpdate _ _ _
          (not_mem_keysOf_dictUpdate _ _ _ (by simp [keysOf]) hfrag) hnc
      · simp only [hke, Bool.false_eq_true, if_false]
        exact not_mem_keysOf_dictUpdate _ _ _
          (not_mem_keysOf_dictUpdate _ _ _
            (not_mem_keysOf_dictUpdate _ _ _ (by simp [keysOf]) hfrag) hkept) hnc
    · intro k hk
      by_cases hke : kept.isEmpty
      · simp only [hke, if_true]
        exact mem_keysOf_dictUpdate_left k c _ (mem_keysOf_dictUpdate_right k frag [] hk)
      · simp only [hke, Bool.false_eq_true, if_false]
        exact mem_keysOf_dictUpdate_left k c _
          (mem_keysOf_dictUpdate_left k kept _ (mem_keysOf_dictUpdate_right k frag [] hk))
    · intro k hk
      by_cases hke : kept.isEmpty
      · rw [List.isEmpty_iff.mp hke] at hk
        simp [keysOf] at hk
      · simp only [hke, Bool.false_eq_true, if_false]
        exact mem_keysOf_dictUpdate_left k c _ (mem_keysOf_dictUpdate_right k kept _ hk)
    · intro c' k hcc hk
      injection hcc with hcc'
      subst hcc'
      exact mem_keysOf_dictUpdate_right k _ _ hk

/-- C6 witness: at a concrete site with a preserved key and a captured
annotation, the merged site holds the fragment entry, the preserved entry
and the annotation, and no `$ref` key. -/
theorem C6_merge_invariant_amended_witness :
    dictLookup "$ref"
        [("type", Json.str "object"), ("collection", Json.str "users"),
         ("nullable", Json.bool true)] = none
    ∧ "type" ∈ keysOf [("type", Json.str "object"), ("collection", Json.str "users"),
         ("nullable", Json.bool true)]
    ∧ "collection" ∈ keysOf [("type", Json.str "object"), ("collection", Json.str "users"),
         ("nullable", Json.bool true)]
    ∧ "nullable" ∈ keysOf [("type", Json.str "object"), ("collection", Json.str "users"),
         ("nullable", Json.bool true)] := by
  have h := C6_merge_invariant_amended
    [("$ref", Json.str "#/x"),
     ("i6RefCollectionName", Json.obj [("collection", Json.str "users")]),
     ("nullable", Json.bool true)]
    [("type", Json.str "object")] ["i6RefCollectionName"]
    [("collection", Json.str "users")]
    [("type", Json.str "object"), ("collection", Json.str "users"),
     ("nullable", Json.bool true)]
    (by decide) (by decide)
  exact ⟨h.1 (by decide) (by decide), h.2.1 "type" (by decide),
    h.2.2.1 "collection" (by decide),
    h.2.2.2 [("nullable", Json.bool true)] "nullable" (by decide) (by decide)⟩

/-- C7 counterexample: the preserved sibling key is not kept verbatim.  At a
site carrying `i6RefCollectionName: {collection: "users"}`, substitution
merges the *entries of the value* into the site and drops the key itself:
the merged site has a `collection` entry and no `i6RefCollectionName`
key. -/
theorem C7_counterexample :
    walk_and_merge_references
        (Json.obj [("$ref", Json.str "#/x"),
          ("i6RefCollectionName", Json.obj [("collection", Json.str "users")])])
        [⟨Json.str "#/x", Json.obj [("type", Json.str "object")]⟩]
        ["i6RefCollectionName"]
      = .ok (Json.obj [("type", Json.str "object"), ("collection", Json.str "users")])
    ∧ dictLookup "i6RefCollectionName"
        [("type", Json.str "object"), ("collection", Json.str "users")] = none := by
  refine ⟨by decide, by decide⟩

theorem dictUpdate_nil_right (d : List (String × Json)) : dictUpdate d [] = d := rfl

/-- C7 as amended: for a site carrying the preserve-listed key with a
mapping value, substitution merges that mapping's entries (not the key-value
pair itself) into the merged site after the fragment — so they override
colliding fragment entries — and the captured annotation fields are applied
last, overriding both; a listed key absent at the site is skipped without
error, leaving the merge result exactly fragment overlaid by captured
annotations. -/
theorem C7_preserved_entries_amended :
    ∀ (site frag : List (String × Json)),
      (∀ e, dictLookup "i6RefCollectionName" site = some (Json.obj e) →
        mergeSite site frag ["i6RefCollectionName"]
          = .ok (match cache_json_properties site with
                 | some c => dictUpdate (dictUpdate (dictUpdate [] frag) (dictUpdate [] e)) c
                 | none => dictUpdate (dictUpdate [] frag) (dictUpdate [] e)))
      ∧ (dictLookup "i6RefCollectionName" site = none →
        mergeSite site frag ["i6RefCollectionName"]
          = .ok (match cache_json_properties site with
                 | some c => dictUpdate (dictUpdate [] frag) c
                 | none => dictUpdate [] frag)) := by
  intro site frag
  constructor
  · intro e hlook
    unfold mergeSite buildKept buildKeptGo
    rw [hlook]
    simp only [keptEntriesOf, buildKeptGo]
    rcases hc : cache_json_properties site with _ | c
    · by_cases hke : (dictUpdate [] e).isEmpty
      · rw [List.isEmpty_iff.mp hke, dictUpdate_nil_right]
        simp
      · simp [hke]
    · by_cases hke : (dictUpdate [] e).isEmpty
      · rw [List.isEmpty_iff.mp hke, dictUpdate_nil_right]
        simp
      · simp [hke]
  · intro hlook
    unfold mergeSite buildKept buildKeptGo
    rw [hlook]
    simp only [buildKeptGo]
    rcases hc : cache_json_properties site with _ | c <;> simp

/-- C7 witness: with the preserved key present its value's entries survive
(overriding nothing here), and with it absent the merge succeeds without
error. -/
theorem C7_preserved_entries_amended_witness :
    mergeSite [("$ref", Json.str "#/x"),
        ("i6RefCollectionName", Json.obj [("collection", Json.str "users")])]
        [("type", Json.str "object")] ["i6RefCollectionName"]
      = .ok [("type", Json.str "object"), ("collection", Json.str "users")]
    ∧ mergeSite [("$ref", Json.str "#/x")] [("type", Json.str "object")]
        ["i6RefCollectionName"]
      = .ok [("type", Json.str "object")] := by
  constructor
  · have h := (C7_preserved_entries_amended
      [("$ref", Json.str "#/x"),
       ("i6RefCollectionName", Json.obj [("collection", Json.str "users")])]
      [("type", Json.str "object")]).1 [("collection", Json.str "users")] (by decide)
    rw [h]
    decide
  · have h := (C7_preserved_entries_amended [("$ref", Json.str "#/x")]
      [("type", Json.str "object")]).2 (by decide)
    rw [h]
    decide

/-- C10: an annotation-whitelist field whose first-found occurrence at the
site is falsy is not captured by `cache_json_properties`, hence not
re-applied after substitution: the merged site's value for that field is
whatever the fragment supplies (or nothing). -/
theorem C10_falsy_not_captured :
    ∀ (site : List (String × Json)) (f p : String) (v : Json)
      (frag m : List (String × Json)),
      walk_dictionary (Json.obj site) f = .ok (p, v) →
      v.truthy = false →
      (∀ c, cache_json_properties site = some c → dictLookup f c = none)
      ∧ (dictLookup "i6RefCollectionName" site = none →
         mergeSite site frag ["i6RefCollectionName"] = .ok m →
         dictLookup f m = dictLookup f (dictUpdate [] frag)) := by
  intro site f p v frag m hwalk hfalsy
  have hnotin : f ∉ keysOf (fields_to_keep.foldl (cacheStep site) []) :=
    not_mem_keysOf_cacheFold_of_falsy site f p v hwalk hfalsy fields_to_keep []
      (by simp [keysOf])
  constructor
  · intro c hc
    unfold cache_json_properties at hc
    rcases hemp : (fields_to_keep.foldl (cacheStep site) []).isEmpty with _ | _
    · simp only [hemp] at hc
      simp only [Bool.false_eq_true, if_false] at hc
      cases hc
      exact (dictLookup_none_iff f _).mpr hnotin
    · simp only [hemp] at hc
      simp only [if_true] at hc
      cases hc
  · intro hlook hmerge
    unfold mergeSite buildKept buildKeptGo at hmerge
    rw [hlook] at hmerge
    simp only [buildKeptGo] at hmerge
    rcases hc : cache_json_properties site with _ | c
    · rw [hc] at hmerge
      simp at hmerge
      subst hmerge
      rfl
    · rw [hc] at hmerge
      simp at hmerge
      subst hmerge
      have hcn : f ∉ keysOf c := by
        unfold cache_json_properties at hc
        rcases hemp : (fields_to_keep.foldl (cacheStep site) []).isEmpty with _ | _
        · simp only [hemp] at hc
          simp only [Bool.false_eq_true, if_false] at hc
          cases hc
          exact hnotin
        · simp only [hemp] at hc
          simp only [if_true] at hc
          cases hc
      exact dictLookup_dictUpdate_of_not_mem f c _ hcn

/-- C10 witness: a site with `nullable: false` loses the field to a fragment
that omits it. -/
theorem C10_falsy_not_captured_witness :
    dictLookup "nullable" [("type", Json.str "string")]
      = dictLookup "nullable" (dictUpdate [] [("type", Json.str "string")]) := by
  exact (C10_falsy_not_captured
    [("$ref", Json.str "#/x"), ("nullable", Json.bool false)] "nullable" "nullable"
    (Json.bool false) [("type", Json.str "string")] [("type", Json.str "string")]
    (by decide) (by decide)).2 (by decide) (by decide)

/-- C9 counterexample: classifying the empty string does not fail with the
invalid-reference error (`ValueError`, as raised for every other
non-matching string): indexing `ref_value[0]` raises `IndexError` first. -/
theorem C9_counterexample :
    evaluate_ref (Json.str "") = .error PyErr.indexError
    ∧ evaluate_ref (Json.str "") ≠ .error PyErr.valueError := by
  refine ⟨by decide, by decide⟩

/-- C9 as amended: `evaluate_ref` is total over strings — `.`-and-`#`
strings are `EXTERNAL_INTERNAL`, `.`-only strings `EXTERNAL`, `#`-headed
strings `INTERNAL`, every other non-empty string fails with
`InvalidReference` (`ValueError`) — while the empty string fails with a
distinct index error, and non-string input with a distinct type error. -/
theorem C9_classify_total_amended :
    (∀ (s : String) (c : Char) (cs : List Char), s.data = c :: cs →
      (c = '.' → '#' ∈ s.data → evaluate_ref (Json.str s) = .ok SchemaRefType.EXTERNAL_INTERNAL)
      ∧ (c = '.' → '#' ∉ s.data → evaluate_ref (Json.str s) = .ok SchemaRefType.EXTERNAL)
      ∧ (c = '#' → evaluate_ref (Json.str s) = .ok SchemaRefType.INTERNAL)
      ∧ (c ≠ '.' → c ≠ '#' → evaluate_ref (Json.str s) = .error PyErr.valueError))
    ∧ (∀ s : String, s.data = [] → evaluate_ref (Json.str s) = .error PyErr.indexError)
    ∧ (∀ j : Json, j.isStr = false → evaluate_ref j = .error PyErr.typeError) := by
  refine ⟨?_, ?_, ?_⟩
  · intro s c cs hdata
    refine ⟨?_, ?_, ?_, ?_⟩
    · intro h1 h2
      subst h1
      rw [hdata] at h2
      simp [evaluate_ref, hdata, h2]
    · intro h1 h2
      subst h1
      rw [hdata] at h2
      simp [evaluate_ref, hdata, h2]
    · intro h1
      subst h1
      simp [evaluate_ref, hdata]
    · intro h1 h2
      simp [evaluate_ref, hdata, h1, h2]
  · intro s hdata
    simp [evaluate_ref, hdata]
  · intro j hj
    cases j with
    | str s => simp [Json.isStr] at hj
    | null => rfl
    | bool b => rfl
    | int n => rfl
    | arr l => rfl
    | obj e => rfl

/-- C9 witness: the amended classification at one concrete input of each
shape. -/
theorem C9_classify_total_amended_witness :
    evaluate_ref (Json.str "./a.json#/x") = .ok SchemaRefType.EXTERNAL_INTERNAL
    ∧ evaluate_ref (Json.str "./a.json") = .ok SchemaRefType.EXTERNAL
    ∧ evaluate_ref (Json.str "#/x") = .ok SchemaRefType.INTERNAL
    ∧ evaluate_ref (Json.str "nota") = .error PyErr.valueError
    ∧ evaluate_ref (Json.str "") = .error PyErr.indexError
    ∧ evaluate_ref (Json.int 420) = .error PyErr.typeError := by
  refine ⟨?_, ?_, ?_, ?_, ?_, ?_⟩
  · exact ((C9_classify_total_amended.1 "./a.json#/x" '.' "/a.json#/x".data rfl).1
      rfl (by decide))
  · exact ((C9_classify_total_amended.1 "./a.json" '.' "/a.json".data rfl).2.1
      rfl (by decide))
  · exact ((C9_classify_total_amended.1 "#/x" '#' "/x".data rfl).2.2.1 rfl)
  · exact ((C9_classify_total_amended.1 "nota" 'n' "ota".data rfl).2.2.2
      (by decide) (by decide))
  · exact (C9_classify_total_amended.2.1 "" rfl)
  · exact (C9_classify_total_amended.2.2 (Json.int 420) rfl)

/-- C8: for every pointer string `#/.../...` whose resolved path contains
the literal segment `enum` (case-insensitively) and that carries a trailing
digit segment as list index, `fetch_value_from_ref` requires the traversed
value to be a sequence — failing with a type error otherwise — and returns
exactly the single-entry fragment
`{enum: [element at the index], type: "number" if every element is an
integer else "string"}`. -/
theorem C8_enum_index_locating :
    ∀ (rest : List Char) (doc : Json) (segs : List (List Char)) (idxs : List Char) (n : Nat),
      splitOnChar '/' rest = segs ++ [idxs] →
      idxs ≠ [] →
      idxs.all Char.isDigit = true →
      digitsToNat idxs = n →
      (∃ e ∈ segs, strToLower e = "enum".data) →
      (∀ (l : List Json) (x : Json),
        traverseKeys segs (some (n : Int)) doc = .ok (Json.arr l) →
        pyListGet l (n : Int) = .ok x →
        fetch_value_from_ref (Json.str (String.mk ('#' :: '/' :: rest))) doc
          = .ok (Json.obj [("enum", Json.arr [x]),
              ("type", Json.str (if l.all Json.isInt then "number" else "string"))]))
      ∧ (∀ cur : Json,
        traverseKeys segs (some (n : Int)) doc = .ok cur →
        (∀ l : List Json, cur ≠ Json.arr l) →
        fetch_value_from_ref (Json.str (String.mk ('#' :: '/' :: rest))) doc
          = .error PyErr.typeError) := by
  intro rest doc segs idxs n hsplit hne hdigits hn henum
  have hrest : rest = joinWith '/' (segs ++ [idxs]) := by
    rw [← joinWith_splitOnChar '/' rest, hsplit]
  have hrestne : rest ≠ [] := by
    rw [hrest]
    exact joinWith_append_singleton_ne_nil '/' segs idxs hne
  have hparse : parsePyInt idxs = some ((n : Nat) : Int) := by
    rw [← hn]
    exact parsePyInt_of_all_digits idxs hne hdigits
  have hd : ∃ d, idxs.getLast? = some d ∧ d.isDigit = true := by
    rcases hidxs : idxs with _ | ⟨c0, cs0⟩
    · exact absurd hidxs hne
    · refine ⟨(c0 :: cs0).getLast (by simp), List.getLast?_eq_getLast _ (by simp), ?_⟩
      have hmem := List.getLast_mem (l := c0 :: cs0) (by simp)
      rw [hidxs] at hdigits
      exact (List.all_eq_true.mp hdigits) _ hmem
  obtain ⟨d, hdl, hdd⟩ := hd
  have hlast : ('#' :: '/' :: rest).getLast? = idxs.getLast? := by
    rw [show ('#' :: '/' :: rest) = ['#', '/'] ++ rest from rfl,
        List.getLast?_append_of_ne_nil _ hrestne, hrest,
        joinWith_append_singleton_getLast '/' segs idxs hne]
  have hlastD : ('#' :: '/' :: rest).getLastD ' ' = d := by
    rw [List.getLastD_eq_getLast? .., hlast, hdl]
    rfl
  have hspec : isSpecialChar (('#' :: '/' :: rest).getLastD ' ') = false := by
    rw [hlastD]
    exact isSpecialChar_eq_false_of_isDigit d hdd
  obtain ⟨e, hemem, helow⟩ := henum
  obtain ⟨a, b, hsegs⟩ := List.append_of_mem hemem
  have henumsub : "/enum/".data <:+: strToLower ('#' :: '/' :: rest) := by
    have h1 : strToLower ('#' :: '/' :: rest) = '#' :: '/' :: strToLower rest := rfl
    have h2 : strToLower rest = joinWith '/' ((segs ++ [idxs]).map strToLower) := by
      rw [hrest, strToLower_joinWith]
    have h3 : (segs ++ [idxs]).map strToLower
        = a.map strToLower ++ "enum".data :: ((b ++ [idxs]).map strToLower) := by
      rw [hsegs]
      simp [helow]
    have hbne : (b ++ [idxs]).map strToLower ≠ [] := by simp
    obtain ⟨u, w, huw⟩ := pattern_infix_joinWith '/' (a.map strToLower) ("enum".data)
      ((b ++ [idxs]).map strToLower) hbne
    rw [h1, h2, h3]
    refine ⟨'#' :: u, w, ?_⟩
    rw [show "/enum/".data = '/' :: ("enum".data ++ ['/']) from rfl]
    rw [show ('#' :: u) ++ ('/' :: ("enum".data ++ ['/'])) ++ w
          = '#' :: (u ++ ('/' :: ("enum".data ++ ['/'])) ++ w) by simp]
    rw [huw]
  have hfetch : fetch_value_from_ref (Json.str (String.mk ('#' :: '/' :: rest))) doc
      = fetchCore ('#' :: '/' :: rest) doc := by
    simp only [fetch_value_from_ref]
    rw [if_neg (by simp)]
    rw [if_neg (show ¬ (isSpecialChar ((String.mk ('#' :: '/' :: rest)).data.getLastD ' ')
          = true) from by
      rw [show (String.mk ('#' :: '/' :: rest)).data = '#' :: '/' :: rest from rfl, hspec]
      simp)]
  have hpop : popListIndex (segs ++ [idxs]) = (segs, some ((n : Nat) : Int)) := by
    unfold popListIndex
    simp only [List.getLast?_concat, hparse, List.dropLast_concat]
  have hcore : ∀ (r : Except PyErr Json), traverseKeys segs (some ((n : Nat) : Int)) doc = r →
      fetchCore ('#' :: '/' :: rest) doc
        = (match r with
           | .error err => .error err
           | .ok current =>
               match current with
               | Json.arr l =>
                   (match pyListGet l ((n : Nat) : Int) with
                    | .error err => .error err
                    | .ok x =>
                        .ok (Json.obj [("enum", Json.arr [x]),
                          ("type", Json.str (if l.all Json.isInt then "number" else "string"))]))
               | _ => .error PyErr.typeError) := by
    intro r hr
    simp only [fetchCore]
    rw [show List.drop 2 ('#' :: '/' :: rest) = rest from rfl, hsplit, hpop]
    simp only []
    rw [hr]
    rcases r with err | current
    · rfl
    · simp only []
      rw [if_pos ⟨henumsub, by simp⟩]
      rcases current with _ | _ | _ | _ | l | _ <;> rfl
  constructor
  · intro l x htrav hget
    rw [hfetch, hcore _ htrav]
    simp only []
    rw [hget]
  · intro cur htrav hnotarr
    rw [hfetch, hcore _ htrav]
    rcases cur with _ | _ | _ | _ | l | _
    · rfl
    · rfl
    · rfl
    · rfl
    · exact absurd rfl (hnotarr l)
    · rfl

/-- C8 witness: `["KG","MT","LB"]` at index `0` yields
`{enum: ["KG"], type: "string"}`, and `[10, 20]` at index `1` yields
`{enum: [20], type: "number"}`. -/
theorem C8_enum_index_locating_witness :
    fetch_value_from_ref (Json.str "#/u/enum/0")
        (Json.obj [("u", Json.obj [("enum",
          Json.arr [Json.str "KG", Json.str "MT", Json.str "LB"])])])
      = .ok (Json.obj [("enum", Json.arr [Json.str "KG"]), ("type", Json.str "string")])
    ∧ fetch_value_from_ref (Json.str "#/w/enum/1")
        (Json.obj [("w", Json.obj [("enum", Json.arr [Json.int 10, Json.int 20])])])
      = .ok (Json.obj [("enum", Json.arr [Json.int 20]), ("type", Json.str "number")]) := by
  constructor
  · exact (C8_enum_index_locating "u/enum/0".data
      (Json.obj [("u", Json.obj [("enum",
        Json.arr [Json.str "KG", Json.str "MT", Json.str "LB"])])])
      ["u".data, "enum".data] ['0'] 0
      (by decide) (by decide) (by decide) (by decide)
      ⟨"enum".data, by decide, by decide⟩).1
      [Json.str "KG", Json.str "MT", Json.str "LB"] (Json.str "KG")
      (by decide) (by decide)
  · exact (C8_enum_index_locating "w/enum/1".data
      (Json.obj [("w", Json.obj [("enum", Json.arr [Json.int 10, Json.int 20])])])
      ["w".data, "enum".data] ['1'] 1
      (by decide) (by decide) (by decide) (by decide)
      ⟨"enum".data, by decide, by decide⟩).1
      [Json.int 10, Json.int 20] (Json.int 20)
      (by decide) (by decide)
